import Mathlib

/-!
Verification of the openclaw trust-boundary core against its source.

The development shallowly embeds four components:
* the system-run approval binding and matcher
  (`src/gateway/system-run-approval-binding.ts`, provided unnamed),
* the DM/group access-policy resolver (`src/security/dm-policy-shared.ts`),
* the per-account delivery dedup cache (`extensions/feishu/src/dedup.ts`),
* the session-store maintenance pass (modelled from the spec; the store
  implementation itself is not among the provided sources).

JavaScript `string | null` / optional fields are embedded as `Option String`
(`none` = null/undefined), JS objects used as env-override maps are embedded
as lists of `(key, value)` pairs in enumeration order, and the SHA-256 digest
is an explicit function parameter `hashFn` (the source calls out to
`node:crypto`, which is external to the repository).
-/

namespace Openclaw

/-- A JavaScript value stored in an env-override object: either a string or
some non-string value (which the normalizer drops). -/
inductive JsVal where
  | str (s : String)
  | nonstr
deriving DecidableEq, Repr

/-- Embeds `string | null` truthiness: `null` and the empty string are falsy. -/
def strOptTruthy : Option String → Bool
  | none => false
  | some s => s ≠ ""

/-! ## Approval binding and matcher (`system-run-approval-binding.ts`) -/

/-- The versioned approval binding (`SystemRunApprovalBindingV1`): schema
version, argv vector, and the nullable cwd/agentId/sessionKey/envHash. -/
structure SystemRunApprovalBindingV1 where
  version : Nat
  argv : List String
  cwd : Option String
  agentId : Option String
  sessionKey : Option String
  envHash : Option String
deriving DecidableEq, Repr

/-- Failure reason codes of the approval matcher. -/
inductive ApprovalMatchCode where
  | APPROVAL_REQUEST_MISMATCH
  | APPROVAL_ENV_BINDING_MISSING
  | APPROVAL_ENV_MISMATCH
deriving DecidableEq, Repr

/-- `SystemRunApprovalMatchResult`: tagged success, or failure with a reason
code (the human-readable message and diagnostic details are constants the
claims do not touch). -/
inductive SystemRunApprovalMatchResult where
  | ok
  | err (code : ApprovalMatchCode)
deriving DecidableEq, Repr

/-- `normalizeString`: trim, map the empty result to null. -/
def normalizeString : Option String → Option String
  | none => none
  | some s => if s.trim = "" then none else some s.trim

/-- Modelled from the spec: `normalizeEnvVarKey(rawKey, { portable: true })`
(`src/infra/host-env-security.ts` is not among the provided sources). The
spec says env overrides are filtered "to syntactically valid variable
names"; we model the portable rule: nonempty, first character a letter or
underscore, all characters letters/digits/underscore; valid keys pass
through unchanged, invalid keys are dropped. -/
def normalizeEnvVarKey (key : String) : Option String :=
  if key ≠ "" ∧ (key.data.headI.isAlpha ∨ key.data.headI = '_') ∧
      key.data.all (fun c => c.isAlphanum ∨ c = '_') then
    some key
  else
    none

/-- One entry of the env-override object through the normalizer: dropped
when the value is not a string or the key is invalid, kept (with the key
unchanged) otherwise. -/
def envEntryNormalize (e : String × JsVal) : Option (String × String) :=
  match e.2 with
  | .nonstr => none
  | .str v =>
    match normalizeEnvVarKey e.1 with
    | none => none
    | some k => some (k, v)

/-- The filtering step of `normalizeSystemRunEnvEntries`: keep string-valued
entries whose key is a valid env-var name. -/
def envFilteredEntries (env : List (String × JsVal)) : List (String × String) :=
  env.filterMap envEntryNormalize

/-- A stand-in digest function used only by concrete witnesses. -/
def sampleHashFn : List (String × String) → String := fun _ => "digest"

/-- A digest stand-in distinguishing empty from non-empty entry lists, used
only by concrete witnesses. -/
def emptinessHashFn : List (String × String) → String :=
  fun l => if l.isEmpty then "e" else "n"

/-- `normalizeSystemRunEnvEntries`: keep string-valued entries with valid
keys, then sort by key (the source sorts with `localeCompare`, embedded as
the string order). -/
def normalizeSystemRunEnvEntries (env : List (String × JsVal)) :
    List (String × String) :=
  (envFilteredEntries env).mergeSort fun a b => decide (a.1 ≤ b.1)

/-- `hashSystemRunEnvEntries`: null for the empty entry list, otherwise the
digest of the sorted entries. The SHA-256 digest of the JSON serialization
is external library code, embedded as the explicit `hashFn` parameter. -/
def hashSystemRunEnvEntries (hashFn : List (String × String) → String)
    (entries : List (String × String)) : Option String :=
  if entries.length = 0 then none else some (hashFn entries)

/-- `buildSystemRunApprovalEnvBinding`: the normalized env digest plus the
list of bound keys. -/
def buildSystemRunApprovalEnvBinding (hashFn : List (String × String) → String)
    (env : List (String × JsVal)) : Option String × List String :=
  let entries := normalizeSystemRunEnvEntries env
  (hashSystemRunEnvEntries hashFn entries, entries.map Prod.fst)

/-- `buildSystemRunApprovalBindingV1`: normalize each scalar field and bind
the env digest; returns the binding together with the live env keys. -/
def buildSystemRunApprovalBindingV1 (hashFn : List (String × String) → String)
    (argv : List String) (cwd agentId sessionKey : Option String)
    (env : List (String × JsVal)) : SystemRunApprovalBindingV1 × List String :=
  let envBinding := buildSystemRunApprovalEnvBinding hashFn env
  ({ version := 1
     argv := argv
     cwd := normalizeString cwd
     agentId := normalizeString agentId
     sessionKey := normalizeString sessionKey
     envHash := envBinding.1 }, envBinding.2)

/-- `argvMatches`: an empty expected argv never matches; otherwise lengths
must agree and elements must agree index-wise. -/
def argvMatches (expectedArgv actualArgv : List String) : Bool :=
  if expectedArgv.length = 0 ∨ expectedArgv.length ≠ actualArgv.length then
    false
  else
    (expectedArgv.zip actualArgv).all fun p => p.1 == p.2

/-- `readExpectedEnvHash`: trim the request's env hash, mapping null /
non-string / blank to null. -/
def readExpectedEnvHash : Option String → Option String
  | none => none
  | some s => if s.trim = "" then none else some s.trim

/-- `requestMismatch`. -/
def requestMismatch : SystemRunApprovalMatchResult :=
  .err .APPROVAL_REQUEST_MISMATCH

/-- `matchSystemRunApprovalEnvHash`: the shared environment-hash rule. -/
def matchSystemRunApprovalEnvHash (expectedEnvHash actualEnvHash : Option String)
    (actualEnvKeys : List String) : SystemRunApprovalMatchResult :=
  if ¬ strOptTruthy expectedEnvHash ∧ ¬ strOptTruthy actualEnvHash then
    .ok
  else if ¬ strOptTruthy expectedEnvHash ∧ strOptTruthy actualEnvHash then
    .err .APPROVAL_ENV_BINDING_MISSING
  else if expectedEnvHash ≠ actualEnvHash then
    .err .APPROVAL_ENV_MISMATCH
  else
    let _ := actualEnvKeys
    .ok

/-- `matchSystemRunApprovalBindingV1`: the versioned matching protocol. -/
def matchSystemRunApprovalBindingV1 (expected actual : SystemRunApprovalBindingV1)
    (actualEnvKeys : List String) : SystemRunApprovalMatchResult :=
  if expected.version ≠ 1 ∨ actual.version ≠ 1 then
    requestMismatch
  else if ¬ argvMatches expected.argv actual.argv then
    requestMismatch
  else if expected.cwd ≠ actual.cwd then
    requestMismatch
  else if expected.agentId ≠ actual.agentId then
    requestMismatch
  else if expected.sessionKey ≠ actual.sessionKey then
    requestMismatch
  else
    matchSystemRunApprovalEnvHash expected.envHash actual.envHash actualEnvKeys

/-- The approval-payload fields the legacy matcher reads
(`ExecApprovalRequestPayload`), plus the fields the overall evaluator reads
(`host`, `systemRunBindingV1`). -/
structure ExecApprovalRequestPayload where
  host : String
  command : Option String
  commandArgv : Option (List String)
  cwd : Option String
  agentId : Option String
  sessionKey : Option String
  envHash : Option String
  systemRunBindingV1 : Option SystemRunApprovalBindingV1
deriving DecidableEq, Repr

/-- The live-side legacy binding record passed to the matchers. -/
structure LegacySystemRunBinding where
  cwd : Option String
  agentId : Option String
  sessionKey : Option String
  env : List (String × JsVal)
deriving DecidableEq, Repr

/-- `matchLegacySystemRunApprovalBinding`: the legacy matching protocol.
The source's early returns are embedded as a guard chain. -/
def matchLegacySystemRunApprovalBinding (hashFn : List (String × String) → String)
    (request : ExecApprovalRequestPayload) (cmdText : String) (argv : List String)
    (binding : LegacySystemRunBinding) : SystemRunApprovalMatchResult :=
  let argvOk : Bool :=
    match request.commandArgv with
    | some requestedArgv => argvMatches requestedArgv argv
    | none => decide (cmdText ≠ "" ∧ request.command = some cmdText)
  if ¬ argvOk then
    requestMismatch
  else if request.cwd ≠ binding.cwd then
    requestMismatch
  else if request.agentId ≠ binding.agentId then
    requestMismatch
  else if request.sessionKey ≠ binding.sessionKey then
    requestMismatch
  else
    let actualEnvBinding := buildSystemRunApprovalEnvBinding hashFn binding.env
    matchSystemRunApprovalEnvHash (readExpectedEnvHash request.envHash)
      actualEnvBinding.1 actualEnvBinding.2

/-- Modelled from the spec: `evaluateSystemRunApprovalMatch`
(`src/gateway/node-invoke-system-run-approval-match.ts` is not among the
provided sources; only its test is). A request whose host is not `node`
fails immediately (approvals are host-scoped); when the request carries a
versioned binding, the versioned protocol is authoritative and the legacy
command-text/argv fields are ignored; otherwise the legacy protocol runs. -/
def evaluateSystemRunApprovalMatch (hashFn : List (String × String) → String)
    (cmdText : String) (argv : List String) (request : ExecApprovalRequestPayload)
    (binding : LegacySystemRunBinding) : SystemRunApprovalMatchResult :=
  if request.host ≠ "node" then
    requestMismatch
  else
    match request.systemRunBindingV1 with
    | some approved =>
      let live := buildSystemRunApprovalBindingV1 hashFn argv binding.cwd
        binding.agentId binding.sessionKey binding.env
      matchSystemRunApprovalBindingV1 approved live.1 live.2
    | none =>
      matchLegacySystemRunApprovalBinding hashFn request cmdText argv binding

/-! ## Access-policy resolver (`security/dm-policy-shared.ts`) -/

/-- Keep the first occurrence of each entry, dropping later duplicates. -/
def dedupKeepFirst : List String → List String
  | [] => []
  | x :: xs => x :: dedupKeepFirst (xs.filter (· ≠ x))
termination_by l => l.length
decreasing_by
  exact Nat.lt_succ_of_le (List.length_filter_le _ _)

/-- Modelled from the spec: `normalizeStringEntries`
(`src/shared/string-normalization.ts` is not among the provided sources).
Entries are trimmed, blanks dropped, duplicates dropped keeping first-seen
order (numeric config entries are already stringified at this boundary). -/
def normalizeStringEntries (entries : List String) : List String :=
  dedupKeepFirst ((entries.map String.trim).filter (· ≠ ""))

/-- Modelled from the spec: `mergeDmAllowFromSources`
(`src/channels/allow-from.ts` is not among the provided sources). The DM
allowlist is the configured allow-from, with the pairing-store entries
appended only when the DM policy (defaulting to `pairing`) is `pairing`. -/
def mergeDmAllowFromSources (allowFrom storeAllowFrom : Option (List String))
    (dmPolicy : Option String) : List String :=
  if dmPolicy.getD "pairing" = "pairing" then
    allowFrom.getD [] ++ storeAllowFrom.getD []
  else
    allowFrom.getD []

/-- Modelled from the spec: `resolveGroupAllowFromSources`
(`src/channels/allow-from.ts` is not among the provided sources). The group
allowlist is the configured group allow-from, falling back to the configured
DM allow-from only when fallback is enabled (the default) and the group
list is empty; the pairing store never participates. -/
def resolveGroupAllowFromSources (allowFrom groupAllowFrom : Option (List String))
    (fallbackToAllowFrom : Option Bool) : List String :=
  let g := groupAllowFrom.getD []
  if g.isEmpty ∧ fallbackToAllowFrom.getD true then allowFrom.getD [] else g

/-- `resolveEffectiveAllowFromLists`: derive the effective DM and group
allowlists from config plus the pairing-store snapshot. -/
def resolveEffectiveAllowFromLists (allowFrom groupAllowFrom storeAllowFrom : Option (List String))
    (dmPolicy : Option String) (groupAllowFromFallbackToAllowFrom : Option Bool) :
    List String × List String :=
  (normalizeStringEntries (mergeDmAllowFromSources allowFrom storeAllowFrom dmPolicy),
   normalizeStringEntries
     (resolveGroupAllowFromSources allowFrom groupAllowFrom
       groupAllowFromFallbackToAllowFrom))

/-- `DmGroupAccessDecision`. -/
inductive DmGroupAccessDecision where
  | allow
  | block
  | pairing
deriving DecidableEq, Repr

/-- `resolveDmGroupAccessDecision`: the total access decision, returning the
decision tag and the log reason. -/
def resolveDmGroupAccessDecision (isGroup : Bool) (dmPolicy groupPolicy : Option String)
    (effectiveAllowFrom effectiveGroupAllowFrom : List String)
    (isSenderAllowed : List String → Bool) : DmGroupAccessDecision × String :=
  let dmp := dmPolicy.getD "pairing"
  let gp := groupPolicy.getD "allowlist"
  let effAllow := normalizeStringEntries effectiveAllowFrom
  let effGroup := normalizeStringEntries effectiveGroupAllowFrom
  if isGroup then
    if gp = "disabled" then
      (.block, "groupPolicy=disabled")
    else if gp = "allowlist" then
      if effGroup.length = 0 then
        (.block, "groupPolicy=allowlist (empty allowlist)")
      else if ¬ isSenderAllowed effGroup then
        (.block, "groupPolicy=allowlist (not allowlisted)")
      else
        (.allow, "groupPolicy=" ++ gp)
    else
      (.allow, "groupPolicy=" ++ gp)
  else
    if dmp = "disabled" then
      (.block, "dmPolicy=disabled")
    else if dmp = "open" then
      (.allow, "dmPolicy=open")
    else if isSenderAllowed effAllow then
      (.allow, "dmPolicy=" ++ dmp ++ " (allowlisted)")
    else if dmp = "pairing" then
      (.pairing, "dmPolicy=pairing (not allowlisted)")
    else
      (.block, "dmPolicy=" ++ dmp ++ " (not allowlisted)")

/-- The specification-side access decision, written exactly after the spec's
words (group: `disabled` always blocks, `allowlist` blocks on an empty list
or a rejecting predicate and allows otherwise, any other policy allows;
DM: `disabled` blocks, `open` allows, a predicate match allows, no match
under `pairing` yields `pairing`, no match otherwise blocks). Compared with
the source's `resolveDmGroupAccessDecision` by the refinement theorem. -/
def accessDecisionSpec (isGroup : Bool) (dmPolicy groupPolicy : String)
    (effAllow effGroup : List String) (isSenderAllowed : List String → Bool) :
    DmGroupAccessDecision :=
  if isGroup then
    if groupPolicy = "disabled" then
      .block
    else if groupPolicy = "allowlist" ∧ (effGroup = [] ∨ isSenderAllowed effGroup = false) then
      .block
    else
      .allow
  else
    if dmPolicy = "disabled" then
      .block
    else if dmPolicy = "open" then
      .allow
    else if isSenderAllowed effAllow then
      .allow
    else if dmPolicy = "pairing" then
      .pairing
    else
      .block

/-- The DM allow-state summary returned by `resolveDmAllowState`. -/
structure DmAllowState where
  configAllowFrom : List String
  hasWildcard : Bool
  allowCount : Nat
  isMultiUserDm : Bool
deriving DecidableEq, Repr

/-- `resolveDmAllowState`: summarize the DM allowlist. The injected
pairing-store read capability is embedded as a function returning
`Except String (List String)`; the source's `.catch(() => [])` is the
`Except.error` branch. -/
def resolveDmAllowState (provider : String) (allowFrom : Option (List String))
    (normalizeEntry : String → String)
    (readStore : String → Except String (List String)) : DmAllowState :=
  let configAllowFrom := normalizeStringEntries (allowFrom.getD [])
  let hasWildcard := configAllowFrom.contains "*"
  let storeAllowFrom :=
    match readStore provider with
    | .ok entries => entries
    | .error _ => []
  let normalizedCfg :=
    (((configAllowFrom.filter (· ≠ "*")).map normalizeEntry).map String.trim).filter (· ≠ "")
  let normalizedStore :=
    ((storeAllowFrom.map normalizeEntry).map String.trim).filter (· ≠ "")
  let allowCount := (dedupKeepFirst (normalizedCfg ++ normalizedStore)).length
  { configAllowFrom := configAllowFrom
    hasWildcard := hasWildcard
    allowCount := allowCount
    isMultiUserDm := hasWildcard || allowCount > 1 }

/-! ## Delivery dedup cache (`extensions/feishu/src/dedup.ts`) -/

def DEDUP_TTL_MS : Nat := 30 * 60 * 1000

def DEDUP_MAX_SIZE : Nat := 1000

def DEDUP_CLEANUP_INTERVAL_MS : Nat := 5 * 60 * 1000

/-- One account's dedup partition: the `messageId → timestamp` map in
insertion order, plus the last-cleanup timestamp (0 when never cleaned). -/
structure DedupPartition where
  entries : List (String × Nat)
  lastCleanup : Nat
deriving DecidableEq, Repr

/-- The throttled-cleanup step at the top of `tryRecordMessage`: at most
once per interval, drop the entries older than the TTL. -/
def dedupCleanup (now : Nat) (p : DedupPartition) : DedupPartition :=
  if now - p.lastCleanup > DEDUP_CLEANUP_INTERVAL_MS then
    { entries := p.entries.filter fun e => ¬ (now - e.2 > DEDUP_TTL_MS)
      lastCleanup := now }
  else p

/-- `tryRecordMessage` on one partition, with the clock explicit: throttled
TTL cleanup, membership test, capacity eviction of the oldest-inserted
entry, then insertion. Timestamps are `Nat`; `now - ts` truncates at zero
exactly where the JS difference would be negative, and both sides fail the
`> threshold` comparisons identically. -/
def tryRecordMessage (now : Nat) (p : DedupPartition) (messageId : String) :
    Bool × DedupPartition :=
  let p := dedupCleanup now p
  if p.entries.any fun e => e.1 == messageId then
    (false, p)
  else
    let entries :=
      if p.entries.length ≥ DEDUP_MAX_SIZE then p.entries.tail else p.entries
    (true, { p with entries := entries ++ [(messageId, now)] })

/-! ## Session-store maintenance -/

/-- One persisted session entry; only the fields maintenance reads. -/
structure SessionEntry where
  sessionId : String
  updatedAt : Nat
deriving DecidableEq, Repr

/-- Modelled from the spec: the maintenance pass `saveSessionStore` applies
before persisting (`src/auto-reply/store.ts` is not among the provided
sources; only its integration tests are). In `enforce` mode, entries whose
age exceeds the retention window are dropped, then, if still over the cap,
only the `maxEntries` most recently updated entries are retained (sorted by
`updatedAt` descending, stable, truncated); any other mode persists the
input map unchanged. The store is a JSON object embedded as a key-entry
list. -/
def pruneSessionStore (mode : String) (pruneAfterMs : Option Nat) (maxEntries : Nat)
    (now : Nat) (store : List (String × SessionEntry)) :
    List (String × SessionEntry) :=
  if mode ≠ "enforce" then
    store
  else
    let afterAge :=
      match pruneAfterMs with
      | none => store
      | some w => store.filter fun e => ¬ (now - e.2.updatedAt > w)
    if afterAge.length ≤ maxEntries then
      afterAge
    else
      (afterAge.mergeSort fun a b => decide (b.2.updatedAt ≤ a.2.updatedAt)).take maxEntries

/-! ## Helper lemmas -/

theorem dedupKeepFirst_sublist : ∀ l : List String, List.Sublist (dedupKeepFirst l) l
  | [] => by simp [dedupKeepFirst]
  | x :: xs => by
    rw [dedupKeepFirst]
    exact List.Sublist.cons₂ x
      ((dedupKeepFirst_sublist (xs.filter (· ≠ x))).trans (List.filter_sublist xs))
termination_by l => l.length
decreasing_by
  exact Nat.lt_succ_of_le (List.length_filter_le _ _)

theorem dedupKeepFirst_nodup : ∀ l : List String, (dedupKeepFirst l).Nodup
  | [] => by simp [dedupKeepFirst]
  | x :: xs => by
    rw [dedupKeepFirst]
    refine List.nodup_cons.mpr ⟨fun hmem => ?_, dedupKeepFirst_nodup (xs.filter (· ≠ x))⟩
    have hx := (dedupKeepFirst_sublist _).subset hmem
    simp at hx
termination_by l => l.length
decreasing_by
  exact Nat.lt_succ_of_le (List.length_filter_le _ _)

theorem normalizeStringEntries_nodup (l : List String) :
    (normalizeStringEntries l).Nodup :=
  dedupKeepFirst_nodup _

theorem normalizeStringEntries_sublist (l : List String) :
    List.Sublist (normalizeStringEntries l) ((l.map String.trim).filter (· ≠ "")) :=
  dedupKeepFirst_sublist _

theorem zip_all_beq_iff : ∀ l₁ l₂ : List String, l₁.length = l₂.length →
    ((((l₁.zip l₂).all fun p => p.1 == p.2) = true) ↔ l₁ = l₂)
  | [], [] => by simp
  | [], _ :: _ => by simp
  | _ :: _, [] => by simp
  | a :: l₁, b :: l₂ => by
    intro h
    have hlen : l₁.length = l₂.length := by simpa using h
    have ih := zip_all_beq_iff l₁ l₂ hlen
    simp only [List.zip_cons_cons, List.all_cons, Bool.and_eq_true, beq_iff_eq,
      List.cons.injEq]
    exact and_congr_right fun _ => ih

theorem argvMatches_eq_true_iff (e a : List String) :
    argvMatches e a = true ↔ e ≠ [] ∧ e = a := by
  unfold argvMatches
  split_ifs with h
  · constructor
    · intro hf
      exact absurd hf (by simp)
    · rintro ⟨hne, rfl⟩
      rcases h with h0 | hlen
      · exact absurd (List.length_eq_zero.mp h0) hne
      · exact absurd rfl hlen
  · push_neg at h
    obtain ⟨h0, hlen⟩ := h
    rw [zip_all_beq_iff e a hlen]
    have hne : e ≠ [] := fun hnil => h0 (by simp [hnil])
    exact ⟨fun heq => ⟨hne, heq⟩, fun hp => hp.2⟩

theorem envHash_ok_iff (e a : Option String) (keys : List String) :
    matchSystemRunApprovalEnvHash e a keys = .ok ↔
      ((strOptTruthy e = false ∧ strOptTruthy a = false) ∨
        (strOptTruthy e = true ∧ e = a)) := by
  unfold matchSystemRunApprovalEnvHash
  split_ifs with h1 h2 h3 <;> simp_all

/-! ## Claim theorems -/

/-- Claim C1: when the live request carries a versioned binding, the
versioned comparison is authoritative: the overall evaluation equals the
versioned match of the carried binding against the v1 binding rebuilt from
the live command, for every value of the legacy command / argv fields — so
a versioned mismatch fails the overall match even when the legacy fields
agree, and a versioned match succeeds even when they differ. -/
theorem C1_versioned_binding_authoritative (hashFn : List (String × String) → String)
    (cmdText : String) (argv : List String) (command : Option String)
    (commandArgv : Option (List String))
    (rcwd ragentId rsessionKey renvHash : Option String)
    (approved : SystemRunApprovalBindingV1) (binding : LegacySystemRunBinding) :
    evaluateSystemRunApprovalMatch hashFn cmdText argv
      { host := "node", command := command, commandArgv := commandArgv,
        cwd := rcwd, agentId := ragentId, sessionKey := rsessionKey,
        envHash := renvHash, systemRunBindingV1 := some approved } binding
      = matchSystemRunApprovalBindingV1 approved
          (buildSystemRunApprovalBindingV1 hashFn argv binding.cwd binding.agentId
            binding.sessionKey binding.env).1
          (buildSystemRunApprovalBindingV1 hashFn argv binding.cwd binding.agentId
            binding.sessionKey binding.env).2 := by
  simp [evaluateSystemRunApprovalMatch]

/-- Claim C3: the shared environment-hash rule returns success when neither
side declares a hash; `APPROVAL_ENV_BINDING_MISSING` when the approval side
declares none but the live side does (and for built env bindings the live
side declares a hash exactly when it supplies env override keys, the final
conjunct); `APPROVAL_ENV_MISMATCH` when both sides declare hashes and they
differ; and success when both declare the same hash. -/
theorem C3_envHash_rule (e a : Option String) (keys : List String) :
    (strOptTruthy e = false ∧ strOptTruthy a = false →
      matchSystemRunApprovalEnvHash e a keys = .ok)
    ∧ (strOptTruthy e = false ∧ strOptTruthy a = true →
      matchSystemRunApprovalEnvHash e a keys = .err .APPROVAL_ENV_BINDING_MISSING)
    ∧ (strOptTruthy e = true ∧ strOptTruthy a = true ∧ e ≠ a →
      matchSystemRunApprovalEnvHash e a keys = .err .APPROVAL_ENV_MISMATCH)
    ∧ (strOptTruthy e = true ∧ e = a →
      matchSystemRunApprovalEnvHash e a keys = .ok)
    ∧ ∀ (hashFn : List (String × String) → String) (env : List (String × JsVal)),
        ((buildSystemRunApprovalEnvBinding hashFn env).1 = none ↔
          (buildSystemRunApprovalEnvBinding hashFn env).2 = []) := by
  refine ⟨?_, ?_, ?_, ?_, ?_⟩
  · rintro ⟨h1, h2⟩
    simp [matchSystemRunApprovalEnvHash, h1, h2]
  · rintro ⟨h1, h2⟩
    simp [matchSystemRunApprovalEnvHash, h1, h2]
  · rintro ⟨h1, h2, h3⟩
    simp [matchSystemRunApprovalEnvHash, h1, h2, h3]
  · rintro ⟨h1, rfl⟩
    simp [matchSystemRunApprovalEnvHash, h1]
  · intro hashFn env
    unfold buildSystemRunApprovalEnvBinding hashSystemRunEnvEntries
    by_cases h : (normalizeSystemRunEnvEntries env).length = 0 <;>
      simp_all [List.length_eq_zero]

/-- Claim C9: when the injected pairing-store read capability rejects, the
resolver absorbs the failure locally and computes the same result as if the
store had returned no entries; the embedded resolver is a total function,
so no store error ever propagates to the caller. -/
theorem C9_store_failure_absorbed (provider : String) (allowFrom : Option (List String))
    (normalizeEntry : String → String) (msg : String) :
    resolveDmAllowState provider allowFrom normalizeEntry (fun _ => .error msg)
      = resolveDmAllowState provider allowFrom normalizeEntry (fun _ => .ok []) := rfl

/-- Claim C10: a versioned binding whose argv vector is empty can never be
matched: for identical v1 bindings with empty argv (all other fields equal,
including the env hash) the versioned match fails with
`APPROVAL_REQUEST_MISMATCH`, because `argvMatches` rejects every empty
expected argv. -/
theorem C10_empty_argv_never_matches (cwd agentId sessionKey envHash : Option String)
    (keys : List String) :
    matchSystemRunApprovalBindingV1
      ⟨1, [], cwd, agentId, sessionKey, envHash⟩
      ⟨1, [], cwd, agentId, sessionKey, envHash⟩ keys
      = .err .APPROVAL_REQUEST_MISMATCH := by
  simp [matchSystemRunApprovalBindingV1, argvMatches, requestMismatch]

/-- Witness for C3: the rule evaluated on one concrete input per case. -/
theorem C3_envHash_rule_witness :
    matchSystemRunApprovalEnvHash none none [] = .ok
    ∧ matchSystemRunApprovalEnvHash none (some "h1") ["K"]
        = .err .APPROVAL_ENV_BINDING_MISSING
    ∧ matchSystemRunApprovalEnvHash (some "h1") (some "h2") []
        = .err .APPROVAL_ENV_MISMATCH
    ∧ matchSystemRunApprovalEnvHash (some "h1") (some "h1") [] = .ok
    ∧ (buildSystemRunApprovalEnvBinding (fun _ => "d") [] ).1 = none :=
  ⟨(C3_envHash_rule none none []).1 (by decide),
   (C3_envHash_rule none (some "h1") ["K"]).2.1 (by decide),
   (C3_envHash_rule (some "h1") (some "h2") []).2.2.1 (by decide),
   (C3_envHash_rule (some "h1") (some "h1") []).2.2.2.1 (by decide),
   ((C3_envHash_rule none none []).2.2.2.2 (fun _ => "d") []).mpr
     (by simp [buildSystemRunApprovalEnvBinding, normalizeSystemRunEnvEntries,
       envFilteredEntries])⟩

/-- Claim C4: the effective DM allowlist is the normalized, deduplicated,
first-seen-order union of the configured allow-from and — only under the
`pairing` DM policy — the pairing-store entries (under `allowlist` the store
is not merged); the effective group allowlist is the configured group
allow-from, falling back to the configured DM allow-from only when fallback
is enabled and the group list is empty, and is independent of the pairing
store under every configuration. Both outputs are duplicate-free. -/
theorem C4_effective_allowlists (a g s : Option (List String)) (fb : Option Bool) :
    ((resolveEffectiveAllowFromLists a g s (some "pairing") fb).1
        = normalizeStringEntries (a.getD [] ++ s.getD []))
    ∧ ((resolveEffectiveAllowFromLists a g s (some "allowlist") fb).1
        = normalizeStringEntries (a.getD []))
    ∧ (∀ dmp, (resolveEffectiveAllowFromLists a g s dmp fb).2
        = (if (g.getD []).isEmpty ∧ fb.getD true then
            normalizeStringEntries (a.getD [])
          else
            normalizeStringEntries (g.getD [])))
    ∧ (∀ dmp s', (resolveEffectiveAllowFromLists a g s dmp fb).2
        = (resolveEffectiveAllowFromLists a g s' dmp fb).2)
    ∧ (∀ dmp, (resolveEffectiveAllowFromLists a g s dmp fb).1.Nodup
        ∧ (resolveEffectiveAllowFromLists a g s dmp fb).2.Nodup) := by
  refine ⟨?_, ?_, ?_, ?_, ?_⟩
  · simp [resolveEffectiveAllowFromLists, mergeDmAllowFromSources]
  · simp [resolveEffectiveAllowFromLists, mergeDmAllowFromSources]
  · intro dmp
    unfold resolveEffectiveAllowFromLists resolveGroupAllowFromSources
    simp only [List.isEmpty_iff]
    split_ifs with h <;> simp
  · intro dmp s'
    unfold resolveEffectiveAllowFromLists resolveGroupAllowFromSources
    rfl
  · intro dmp
    exact ⟨normalizeStringEntries_nodup _, normalizeStringEntries_nodup _⟩

/-- Claim C5: the access decision is the total function described by the
spec — in group context `disabled` always blocks, `allowlist` blocks
exactly on an empty effective group allowlist or a rejecting
sender-membership predicate and allows otherwise, any other group policy
allows; in DM context `disabled` blocks, `open` always allows, a predicate
match against the effective DM allowlist allows, no match under `pairing`
yields the pairing decision, and no match under any other policy blocks.
Stated as refinement of the spec-side `accessDecisionSpec` (policies
defaulted, lists normalized, exactly as the source does). -/
theorem C5_access_decision_total (isGroup : Bool) (dmPolicy groupPolicy : Option String)
    (effA effG : List String) (pred : List String → Bool) :
    (resolveDmGroupAccessDecision isGroup dmPolicy groupPolicy effA effG pred).1
      = accessDecisionSpec isGroup (dmPolicy.getD "pairing") (groupPolicy.getD "allowlist")
          (normalizeStringEntries effA) (normalizeStringEntries effG) pred := by
  unfold resolveDmGroupAccessDecision accessDecisionSpec
  by_cases hg : isGroup <;>
    simp only [hg, if_true, if_false, Bool.false_eq_true] <;>
    split_ifs <;>
    simp_all [List.length_eq_zero]

theorem matchV1_ok_iff (e a : SystemRunApprovalBindingV1) (keys : List String) :
    matchSystemRunApprovalBindingV1 e a keys = .ok ↔
      (e.version = 1 ∧ a.version = 1 ∧ e.argv ≠ [] ∧ e.argv = a.argv ∧ e.cwd = a.cwd
        ∧ e.agentId = a.agentId ∧ e.sessionKey = a.sessionKey
        ∧ matchSystemRunApprovalEnvHash e.envHash a.envHash keys = .ok) := by
  constructor
  · intro hok
    unfold matchSystemRunApprovalBindingV1 at hok
    split_ifs at hok with h1 h2 h3 h4 h5
    · simp [requestMismatch] at hok
    · simp [requestMismatch] at hok
    · simp [requestMismatch] at hok
    · simp [requestMismatch] at hok
    · push_neg at h1
      obtain ⟨hargvne, hargveq⟩ := (argvMatches_eq_true_iff _ _).mp h2
      exact ⟨h1.1, h1.2, hargvne, hargveq, not_ne_iff.mp h3, not_ne_iff.mp h4,
        not_ne_iff.mp h5, hok⟩
    · simp [requestMismatch] at hok
  · rintro ⟨hv1, hv2, hne, hargv, hcwd, hag, hsk, henv⟩
    have hAM : argvMatches e.argv a.argv = true :=
      (argvMatches_eq_true_iff _ _).mpr ⟨hne, hargv⟩
    simp [matchSystemRunApprovalBindingV1, hv1, hv2, hcwd, hag, hsk, hAM, henv]

/-- Counterexample to claim C2 as stated: two v1 bindings every one of whose
compared fields is pairwise equal (both sides are the same binding, with
version tag 1, and the shared env rule passes on their equal hashes), yet
the match fails, because the empty argv vector is rejected. -/
theorem C2_pairwise_equal_but_mismatch_cex :
    matchSystemRunApprovalBindingV1 ⟨1, [], none, none, none, none⟩
      ⟨1, [], none, none, none, none⟩ [] = .err .APPROVAL_REQUEST_MISMATCH
    ∧ matchSystemRunApprovalEnvHash none none [] = .ok := by
  constructor
  · simp [matchSystemRunApprovalBindingV1, argvMatches, requestMismatch]
  · simp [matchSystemRunApprovalEnvHash, strOptTruthy]

/-- Claim C2 (amended): the versioned match succeeds iff both version tags
equal 1, the argv vectors are non-empty and element-wise equal, cwd,
agentId and sessionKey (including absence) are equal, and the shared
environment-hash rule passes; from any successful match, changing a single
argv token yields failure `APPROVAL_REQUEST_MISMATCH`, changing the cwd
yields `APPROVAL_REQUEST_MISMATCH`, and changing a declared environment
hash yields `APPROVAL_ENV_MISMATCH`. -/
theorem C2_match_iff_and_single_flips (e a : SystemRunApprovalBindingV1)
    (keys : List String) :
    (matchSystemRunApprovalBindingV1 e a keys = .ok ↔
      (e.version = 1 ∧ a.version = 1 ∧ e.argv ≠ [] ∧ e.argv = a.argv ∧ e.cwd = a.cwd
        ∧ e.agentId = a.agentId ∧ e.sessionKey = a.sessionKey
        ∧ matchSystemRunApprovalEnvHash e.envHash a.envHash keys = .ok))
    ∧ (matchSystemRunApprovalBindingV1 e a keys = .ok →
        ∀ i : Nat, ∀ t : String, i < a.argv.length → a.argv[i]? ≠ some t →
          matchSystemRunApprovalBindingV1 e { a with argv := a.argv.set i t } keys
            = .err .APPROVAL_REQUEST_MISMATCH)
    ∧ (matchSystemRunApprovalBindingV1 e a keys = .ok →
        ∀ c : Option String, c ≠ a.cwd →
          matchSystemRunApprovalBindingV1 e { a with cwd := c } keys
            = .err .APPROVAL_REQUEST_MISMATCH)
    ∧ (matchSystemRunApprovalBindingV1 e a keys = .ok →
        ∀ h : String, strOptTruthy a.envHash = true → some h ≠ a.envHash →
          matchSystemRunApprovalBindingV1 e { a with envHash := some h } keys
            = .err .APPROVAL_ENV_MISMATCH) := by
  refine ⟨matchV1_ok_iff e a keys, ?_, ?_, ?_⟩
  · intro hok i t hi hne
    obtain ⟨hv1, hv2, hne0, hargv, hcwd, hag, hsk, henv⟩ :=
      (matchV1_ok_iff e a keys).mp hok
    have hsetne : e.argv ≠ a.argv.set i t := by
      rw [hargv]
      intro hEq
      have hi' := congrArg (fun l => l[i]?) hEq
      simp only [List.getElem?_set_self hi] at hi'
      exact hne hi'
    have hAM : argvMatches e.argv (a.argv.set i t) ≠ true := by
      simp only [ne_eq, argvMatches_eq_true_iff, not_and]
      exact fun _ hp => hsetne hp
    unfold matchSystemRunApprovalBindingV1
    simp [hv1, hv2, hAM, requestMismatch]
  · intro hok c hne
    obtain ⟨hv1, hv2, hne0, hargv, hcwd, hag, hsk, henv⟩ :=
      (matchV1_ok_iff e a keys).mp hok
    have hAM : argvMatches e.argv a.argv = true :=
      (argvMatches_eq_true_iff _ _).mpr ⟨hne0, hargv⟩
    have hcne : e.cwd ≠ c := by
      rw [hcwd]
      exact fun hEq => hne hEq.symm
    unfold matchSystemRunApprovalBindingV1
    simp [hv1, hv2, hAM, hcne, requestMismatch]
  · intro hok h htruthy hne
    obtain ⟨hv1, hv2, hne0, hargv, hcwd, hag, hsk, henv⟩ :=
      (matchV1_ok_iff e a keys).mp hok
    have hAM : argvMatches e.argv a.argv = true :=
      (argvMatches_eq_true_iff _ _).mpr ⟨hne0, hargv⟩
    have heq : e.envHash = a.envHash := by
      rcases (envHash_ok_iff e.envHash a.envHash keys).mp henv with hfalsy | htr
      · rw [hfalsy.2] at htruthy
        cases htruthy
      · exact htr.2
    have hetruthy : strOptTruthy e.envHash = true := heq ▸ htruthy
    have hhne : e.envHash ≠ some h := by
      rw [heq]
      exact fun hEq => hne hEq.symm
    unfold matchSystemRunApprovalBindingV1
    simp only [hv1, hv2, hAM, hcwd, hag, hsk]
    simp [matchSystemRunApprovalEnvHash, hetruthy, hhne]

/-- Witness for C2: a concrete successful match, and the three single-field
flips each turning it into the corresponding failure. -/
theorem C2_match_iff_and_single_flips_witness :
    (matchSystemRunApprovalBindingV1
        ⟨1, ["echo", "SAFE"], some "/tmp", some "agent-1", some "session-1", some "h"⟩
        ⟨1, ["echo", "SAFE"], some "/tmp", some "agent-1", some "session-1", some "h"⟩ []
      = .ok)
    ∧ (matchSystemRunApprovalBindingV1
        ⟨1, ["echo", "SAFE"], some "/tmp", some "agent-1", some "session-1", some "h"⟩
        ⟨1, ["echo", "SAFE"].set 1 "PWNED", some "/tmp", some "agent-1", some "session-1",
          some "h"⟩ []
      = .err .APPROVAL_REQUEST_MISMATCH)
    ∧ (matchSystemRunApprovalBindingV1
        ⟨1, ["echo", "SAFE"], some "/tmp", some "agent-1", some "session-1", some "h"⟩
        ⟨1, ["echo", "SAFE"], some "/evil", some "agent-1", some "session-1", some "h"⟩ []
      = .err .APPROVAL_REQUEST_MISMATCH)
    ∧ (matchSystemRunApprovalBindingV1
        ⟨1, ["echo", "SAFE"], some "/tmp", some "agent-1", some "session-1", some "h"⟩
        ⟨1, ["echo", "SAFE"], some "/tmp", some "agent-1", some "session-1", some "g"⟩ []
      = .err .APPROVAL_ENV_MISMATCH) := by
  have hok : matchSystemRunApprovalBindingV1
      ⟨1, ["echo", "SAFE"], some "/tmp", some "agent-1", some "session-1", some "h"⟩
      ⟨1, ["echo", "SAFE"], some "/tmp", some "agent-1", some "session-1", some "h"⟩ []
      = .ok :=
    (C2_match_iff_and_single_flips _ _ []).1.mpr
      ⟨rfl, rfl, by decide, rfl, rfl, rfl, rfl, by decide⟩
  refine ⟨hok, ?_, ?_, ?_⟩
  · exact (C2_match_iff_and_single_flips _ _ []).2.1 hok 1 "PWNED" (by decide) (by decide)
  · exact (C2_match_iff_and_single_flips _ _ []).2.2.1 hok (some "/evil") (by decide)
  · exact (C2_match_iff_and_single_flips _ _ []).2.2.2 hok "g" (by decide) (by decide)

theorem dedupCleanup_mem (now : Nat) (p : DedupPartition) (e : String × Nat)
    (he : e ∈ (dedupCleanup now p).entries) : e ∈ p.entries := by
  unfold dedupCleanup at he
  split_ifs at he with h
  · exact (List.mem_filter.mp he).1
  · exact he

theorem tryRecord_fresh (now : Nat) (p : DedupPartition) (id : String)
    (hfresh : ∀ e ∈ p.entries, e.1 ≠ id) :
    (tryRecordMessage now p id).1 = true
    ∧ (id, now) ∈ (tryRecordMessage now p id).2.entries := by
  unfold tryRecordMessage
  have hany : ((dedupCleanup now p).entries.any fun e => e.1 == id) = false := by
    simp only [List.any_eq_false]
    intro e he
    simpa using hfresh e (dedupCleanup_mem now p e he)
  simp [hany]

theorem tryRecord_seen (now : Nat) (p : DedupPartition) (id : String) (ts : Nat)
    (hmem : (id, ts) ∈ p.entries) (hkeep : ¬ (now - ts > DEDUP_TTL_MS)) :
    (tryRecordMessage now p id).1 = false := by
  unfold tryRecordMessage
  have hin : (id, ts) ∈ (dedupCleanup now p).entries := by
    unfold dedupCleanup
    split_ifs with h
    · exact List.mem_filter.mpr ⟨hmem, by simpa using hkeep⟩
    · exact hmem
  have hany : ((dedupCleanup now p).entries.any fun e => e.1 == id) = true :=
    List.any_eq_true.mpr ⟨(id, ts), hin, by simp⟩
  simp [hany]

/-- Claim C7: for every partition and message id — (1) recording an id not
present in the partition reports first-seen, and recording it again within
the TTL window reports already-seen; (2) once every occurrence of the id in
a partition has aged past the TTL and the throttle allows cleanup to run,
the id is first-seen again; (3) inserting a fresh id into a partition at
capacity (with cleanup throttled) evicts exactly the oldest-inserted entry:
the new table is the old one minus its head, plus the new id at the end. -/
theorem C7_dedup_tryRecord (p : DedupPartition) (id : String) (now : Nat) :
    ((∀ e ∈ p.entries, e.1 ≠ id) →
      (tryRecordMessage now p id).1 = true
      ∧ ∀ now₂ : Nat, now₂ - now ≤ DEDUP_TTL_MS →
          (tryRecordMessage now₂ (tryRecordMessage now p id).2 id).1 = false)
    ∧ (now - p.lastCleanup > DEDUP_CLEANUP_INTERVAL_MS →
        (∀ e ∈ p.entries, e.1 = id → now - e.2 > DEDUP_TTL_MS) →
        (tryRecordMessage now p id).1 = true)
    ∧ (now - p.lastCleanup ≤ DEDUP_CLEANUP_INTERVAL_MS →
        (∀ e ∈ p.entries, e.1 ≠ id) →
        p.entries.length ≥ DEDUP_MAX_SIZE →
        (tryRecordMessage now p id).1 = true
        ∧ (tryRecordMessage now p id).2.entries
            = p.entries.tail ++ [(id, now)]) := by
  refine ⟨?_, ?_, ?_⟩
  · intro hfresh
    refine ⟨(tryRecord_fresh now p id hfresh).1, ?_⟩
    intro now₂ httl
    exact tryRecord_seen now₂ (tryRecordMessage now p id).2 id now
      (tryRecord_fresh now p id hfresh).2 (by omega)
  · intro hthrottle hstale
    unfold tryRecordMessage
    have hany : ((dedupCleanup now p).entries.any fun e => e.1 == id) = false := by
      simp only [List.any_eq_false]
      intro e he
      unfold dedupCleanup at he
      rw [if_pos hthrottle] at he
      obtain ⟨hin, hkeep⟩ := List.mem_filter.mp he
      intro hbeq
      have hid : e.1 = id := by simpa using hbeq
      have := hstale e hin hid
      simp_all
    simp [hany]
  · intro hthrottle hfresh hcap
    have hnc : dedupCleanup now p = p := by
      unfold dedupCleanup
      rw [if_neg (by omega)]
    have hany : (p.entries.any fun e => e.1 == id) = false := by
      simp only [List.any_eq_false]
      intro e he
      simpa using hfresh e he
    unfold tryRecordMessage
    rw [hnc]
    simp [hany, hcap]

/-- Witness for C7: the three behaviors at concrete inputs — a fresh id is
first-seen and already-seen on the immediate retry; an id recorded at time
0 is first-seen again at a time past the TTL once cleanup runs; and a
partition holding 1000 entries evicts exactly its oldest entry. -/
theorem C7_dedup_tryRecord_witness :
    ((tryRecordMessage 1000 ⟨[], 0⟩ "m1").1 = true
      ∧ (tryRecordMessage 1000 (tryRecordMessage 1000 ⟨[], 0⟩ "m1").2 "m1").1 = false)
    ∧ (tryRecordMessage 2000000 ⟨[("m1", 0)], 0⟩ "m1").1 = true
    ∧ ((tryRecordMessage 0 ⟨List.replicate 1000 ("a", 0), 0⟩ "b").1 = true
      ∧ (tryRecordMessage 0 ⟨List.replicate 1000 ("a", 0), 0⟩ "b").2.entries
          = (List.replicate 1000 ("a", 0)).tail ++ [("b", 0)]) := by
  have h₁ := (C7_dedup_tryRecord ⟨[], 0⟩ "m1" 1000).1 (by simp)
  have h₂ := (C7_dedup_tryRecord ⟨[("m1", 0)], 0⟩ "m1" 2000000).2.1
    (by decide)
    (by
      intro e he hid
      simp only [List.mem_singleton] at he
      subst he
      decide)
  have h₃ := (C7_dedup_tryRecord ⟨List.replicate 1000 ("a", 0), 0⟩ "b" 0).2.2
    (by decide)
    (by
      intro e he
      have := List.eq_of_mem_replicate he
      subst this
      decide)
    (by
      rw [List.length_replicate]
      decide)
  exact ⟨⟨h₁.1, h₁.2 1000 (by decide)⟩, h₂, h₃⟩

/-- Claim C8: on a persisted write in `enforce` mode — every surviving
entry is an entry of the input that is not older than the retention window;
when the fresh entries fit the cap they are all retained (so exactly the
stale entries are removed); when they exceed the cap the result has exactly
`maxEntries` entries; both rules together keep the result at or below the
cap; every dropped fresh entry is no more recently updated than every
retained one; and `warn` mode persists the input map unchanged. -/
theorem C8_sessionStore_maintenance (w maxE now : Nat)
    (store : List (String × SessionEntry)) :
    ((∀ e ∈ pruneSessionStore "enforce" (some w) maxE now store,
        e ∈ store ∧ ¬ (now - e.2.updatedAt > w))
      ∧ ((store.filter fun e => ¬ (now - e.2.updatedAt > w)).length ≤ maxE →
          pruneSessionStore "enforce" (some w) maxE now store
            = store.filter fun e => ¬ (now - e.2.updatedAt > w))
      ∧ ((store.filter fun e => ¬ (now - e.2.updatedAt > w)).length > maxE →
          (pruneSessionStore "enforce" (some w) maxE now store).length = maxE)
      ∧ (pruneSessionStore "enforce" (some w) maxE now store).length ≤ maxE
      ∧ (∀ x ∈ pruneSessionStore "enforce" (some w) maxE now store,
          ∀ y ∈ store.filter fun e => ¬ (now - e.2.updatedAt > w),
            y ∉ pruneSessionStore "enforce" (some w) maxE now store →
            y.2.updatedAt ≤ x.2.updatedAt))
    ∧ pruneSessionStore "warn" (some w) maxE now store = store := by
  have hwarn : pruneSessionStore "warn" (some w) maxE now store = store := by
    unfold pruneSessionStore
    rw [if_pos (by decide)]
  set F := store.filter fun e => ¬ (now - e.2.updatedAt > w) with hF
  set le : (String × SessionEntry) → (String × SessionEntry) → Bool :=
    fun a b => decide (b.2.updatedAt ≤ a.2.updatedAt) with hle
  set S := F.mergeSort le with hS
  have hperm : S.Perm F := List.mergeSort_perm F le
  have hsorted : S.Pairwise fun a b => le a b = true := by
    have := @List.sorted_mergeSort (String × SessionEntry) le
      (fun a b c hab hbc => by
        simp only [hle, decide_eq_true_eq] at *
        omega)
      (fun a b => by
        simp only [hle, Bool.or_eq_true, decide_eq_true_eq]
        exact Nat.le_total b.2.updatedAt a.2.updatedAt)
      F
    simpa [hS] using this
  have hunfold : pruneSessionStore "enforce" (some w) maxE now store
      = if F.length ≤ maxE then F else S.take maxE := by
    unfold pruneSessionStore
    rw [if_neg (by decide)]
  refine ⟨⟨?_, ?_, ?_, ?_, ?_⟩, hwarn⟩
  · intro e he
    rw [hunfold] at he
    have heF : e ∈ F := by
      by_cases hlen : F.length ≤ maxE
      · rwa [if_pos hlen] at he
      · rw [if_neg hlen] at he
        exact hperm.subset ((List.take_sublist _ _).subset he)
    obtain ⟨hin, hpred⟩ := List.mem_filter.mp heF
    exact ⟨hin, by simpa using hpred⟩
  · intro hlen
    rw [hunfold, if_pos hlen]
  · intro hlen
    rw [hunfold, if_neg (Nat.not_le.mpr hlen), List.length_take,
      hperm.length_eq]
    omega
  · rw [hunfold]
    by_cases hlen : F.length ≤ maxE
    · rw [if_pos hlen]
      exact hlen
    · rw [if_neg hlen, List.length_take]
      omega
  · intro x hx y hyF hynr
    rw [hunfold] at hx hynr
    by_cases hlen : F.length ≤ maxE
    · rw [if_pos hlen] at hynr
      exact absurd hyF hynr
    · rw [if_neg hlen] at hx hynr
      have hyS : y ∈ S := hperm.mem_iff.mpr hyF
      have hydrop : y ∈ S.drop maxE := by
        have hy2 : y ∈ S.take maxE ++ S.drop maxE := by
          rw [List.take_append_drop]
          exact hyS
        rcases List.mem_append.mp hy2 with h | h
        · exact absurd h hynr
        · exact h
      have hsplit := hsorted
      rw [← List.take_append_drop maxE S] at hsplit
      obtain ⟨-, -, hcross⟩ := List.pairwise_append.mp hsplit
      have := hcross x hx y hydrop
      simpa [hle, decide_eq_true_eq] using this

/-- Witness for C8: a concrete three-entry store at time 100 with a 10-tick
retention window — under a cap of 5 the save keeps exactly the two fresh
entries; under a cap of 1 it keeps exactly one entry; `warn` mode saves the
input unchanged. -/
theorem C8_sessionStore_maintenance_witness :
    (pruneSessionStore "enforce" (some 10) 5 100
        [("a", ⟨"s1", 95⟩), ("b", ⟨"s2", 50⟩), ("c", ⟨"s3", 98⟩)]
      = [("a", ⟨"s1", 95⟩), ("c", ⟨"s3", 98⟩)])
    ∧ (pruneSessionStore "enforce" (some 10) 1 100
        [("a", ⟨"s1", 95⟩), ("b", ⟨"s2", 50⟩), ("c", ⟨"s3", 98⟩)]).length = 1
    ∧ pruneSessionStore "warn" (some 10) 1 100
        [("a", ⟨"s1", 95⟩), ("b", ⟨"s2", 50⟩), ("c", ⟨"s3", 98⟩)]
      = [("a", ⟨"s1", 95⟩), ("b", ⟨"s2", 50⟩), ("c", ⟨"s3", 98⟩)] := by
  refine ⟨?_, ?_, ?_⟩
  · have h := (C8_sessionStore_maintenance 10 5 100
      [("a", ⟨"s1", 95⟩), ("b", ⟨"s2", 50⟩), ("c", ⟨"s3", 98⟩)]).1.2.1 (by decide)
    rw [h]
    decide
  · exact (C8_sessionStore_maintenance 10 1 100
      [("a", ⟨"s1", 95⟩), ("b", ⟨"s2", 50⟩), ("c", ⟨"s3", 98⟩)]).1.2.2.1 (by decide)
  · exact (C8_sessionStore_maintenance 10 1 100
      [("a", ⟨"s1", 95⟩), ("b", ⟨"s2", 50⟩), ("c", ⟨"s3", 98⟩)]).2

theorem normalizeEnvVarKey_eq_some {s k : String}
    (h : normalizeEnvVarKey s = some k) : k = s := by
  unfold normalizeEnvVarKey at h
  split_ifs at h
  exact (Option.some.inj h).symm

theorem envEntryNormalize_fst {e : String × JsVal} {p : String × String}
    (h : envEntryNormalize e = some p) : p.1 = e.1 := by
  unfold envEntryNormalize at h
  cases hv : e.2 with
  | nonstr =>
    rw [hv] at h
    cases h
  | str v =>
    rw [hv] at h
    cases hk : normalizeEnvVarKey e.1 with
    | none =>
      rw [hk] at h
      cases h
    | some k =>
      rw [hk] at h
      have := Option.some.inj h
      rw [← this]
      exact normalizeEnvVarKey_eq_some hk

theorem envFilteredEntries_keys_sublist : ∀ env : List (String × JsVal),
    List.Sublist ((envFilteredEntries env).map Prod.fst) (env.map Prod.fst)
  | [] => by simp [envFilteredEntries]
  | e :: rest => by
    have ih := envFilteredEntries_keys_sublist rest
    simp only [envFilteredEntries, List.filterMap_cons, List.map_cons]
    cases h : envEntryNormalize e with
    | none => exact ih.cons _
    | some p =>
      simp only [List.map_cons, envEntryNormalize_fst h]
      exact ih.cons₂ _

/-- Two lists of env entries that are permutations of each other, both
sorted by key, with duplicate-free keys, are equal. -/
theorem sorted_keys_nodup_perm_eq :
    ∀ l₁ l₂ : List (String × String), l₁.Perm l₂ →
      l₁.Pairwise (fun a b => a.1 ≤ b.1) →
      l₂.Pairwise (fun a b => a.1 ≤ b.1) →
      (l₁.map Prod.fst).Nodup → l₁ = l₂
  | [], l₂, hp, _, _, _ => hp.nil_eq
  | a :: t₁, [], hp, _, _, _ => by
    have := hp.symm.nil_eq
    cases this
  | a :: t₁, b :: t₂, hp, hs₁, hs₂, hn₁ => by
    have hab : a = b := by
      by_contra hne
      have haIn : a ∈ b :: t₂ := hp.subset (List.mem_cons_self a t₁)
      have hbIn : b ∈ a :: t₁ := hp.symm.subset (List.mem_cons_self b t₂)
      have hat₂ : a ∈ t₂ := by
        rcases List.mem_cons.mp haIn with h | h
        · exact absurd h hne
        · exact h
      have hbt₁ : b ∈ t₁ := by
        rcases List.mem_cons.mp hbIn with h | h
        · exact absurd h.symm hne
        · exact h
      have h₁ : a.1 ≤ b.1 := (List.pairwise_cons.mp hs₁).1 b hbt₁
      have h₂ : b.1 ≤ a.1 := (List.pairwise_cons.mp hs₂).1 a hat₂
      have hkey : a.1 = b.1 := le_antisymm h₁ h₂
      have hmem : a.1 ∈ t₁.map Prod.fst := List.mem_map.mpr ⟨b, hbt₁, hkey.symm⟩
      have hnd : a.1 ∉ t₁.map Prod.fst := by
        have hn' := hn₁
        rw [List.map_cons] at hn'
        exact (List.nodup_cons.mp hn').1
      exact hnd hmem
    subst hab
    have hn' := hn₁
    rw [List.map_cons] at hn'
    have ht := sorted_keys_nodup_perm_eq t₁ t₂ hp.cons_inv
      (List.pairwise_cons.mp hs₁).2 (List.pairwise_cons.mp hs₂).2
      (List.nodup_cons.mp hn').2
    rw [ht]

theorem normalizeEntries_sorted (env : List (String × JsVal)) :
    (normalizeSystemRunEnvEntries env).Pairwise fun a b => a.1 ≤ b.1 := by
  have h := @List.sorted_mergeSort (String × String)
    (fun a b : String × String => decide (a.1 ≤ b.1))
    (fun a b c hab hbc => by
      simp only [decide_eq_true_eq] at *
      exact le_trans hab hbc)
    (fun a b => by
      simp only [Bool.or_eq_true, decide_eq_true_eq]
      exact le_total a.1 b.1)
    (envFilteredEntries env)
  exact h.imp fun hab => of_decide_eq_true hab

theorem normalizeEntries_perm_invariant (env₁ env₂ : List (String × JsVal))
    (hnd : (env₁.map Prod.fst).Nodup) (hp : env₁.Perm env₂) :
    normalizeSystemRunEnvEntries env₁ = normalizeSystemRunEnvEntries env₂ := by
  have hfp : (envFilteredEntries env₁).Perm (envFilteredEntries env₂) :=
    hp.filterMap _
  have hperm : (normalizeSystemRunEnvEntries env₁).Perm
      (normalizeSystemRunEnvEntries env₂) :=
    ((List.mergeSort_perm _ _).trans hfp).trans (List.mergeSort_perm _ _).symm
  have hnd₁ : ((normalizeSystemRunEnvEntries env₁).map Prod.fst).Nodup := by
    have h1 : ((envFilteredEntries env₁).map Prod.fst).Nodup :=
      (envFilteredEntries_keys_sublist env₁).nodup hnd
    have h2 : ((normalizeSystemRunEnvEntries env₁).map Prod.fst).Perm
        ((envFilteredEntries env₁).map Prod.fst) :=
      (List.mergeSort_perm _ _).map _
    exact h2.nodup_iff.mpr h1
  exact sorted_keys_nodup_perm_eq _ _ hperm (normalizeEntries_sorted env₁)
    (normalizeEntries_sorted env₂) hnd₁

/-- Counterexample to claim C6 as stated: the env objects `{"1BAD": "x"}`
and `{}` carry differing key/value sets, yet both produce the same (absent)
hash, because the invalid key `1BAD` is dropped by normalization before
hashing; so differing sets do not always produce different hashes. -/
theorem C6_differing_sets_equal_hash_cex :
    (buildSystemRunApprovalEnvBinding sampleHashFn [("1BAD", .str "x")]).1
      = (buildSystemRunApprovalEnvBinding sampleHashFn []).1
    ∧ ([("1BAD", JsVal.str "x")] : List (String × JsVal)) ≠ [] := by
  constructor
  · have hk : normalizeEnvVarKey "1BAD" = none := by decide
    simp [buildSystemRunApprovalEnvBinding, normalizeSystemRunEnvEntries,
      envFilteredEntries, envEntryNormalize, hk, hashSystemRunEnvEntries]
  · simp

/-- Claim C6 (amended): the environment-override hash is order-independent
— any two env objects with the same set of (key, value) pairs (duplicate
keys cannot occur in an object) produce the identical binding; and two env
objects whose normalized entry lists differ produce different hashes
whenever the digest does not collide on those two entry lists (normalization
can collapse differing raw sets, as the counterexample shows, and a
cryptographic digest is collision-free only in this assumed sense). -/
theorem C6_envHash_order_independent_and_separating
    (hashFn : List (String × String) → String) (env₁ env₂ : List (String × JsVal)) :
    ((env₁.map Prod.fst).Nodup → env₁.Perm env₂ →
      buildSystemRunApprovalEnvBinding hashFn env₁
        = buildSystemRunApprovalEnvBinding hashFn env₂)
    ∧ ((hashFn (normalizeSystemRunEnvEntries env₁)
          = hashFn (normalizeSystemRunEnvEntries env₂) →
        normalizeSystemRunEnvEntries env₁ = normalizeSystemRunEnvEntries env₂) →
      normalizeSystemRunEnvEntries env₁ ≠ normalizeSystemRunEnvEntries env₂ →
      (buildSystemRunApprovalEnvBinding hashFn env₁).1
        ≠ (buildSystemRunApprovalEnvBinding hashFn env₂).1) := by
  constructor
  · intro hnd hp
    unfold buildSystemRunApprovalEnvBinding
    rw [normalizeEntries_perm_invariant env₁ env₂ hnd hp]
  · intro hinj hne
    unfold buildSystemRunApprovalEnvBinding hashSystemRunEnvEntries
    simp only []
    split_ifs with h₁ h₂ h₂
    · exact absurd (by
        rw [List.length_eq_zero.mp h₁, List.length_eq_zero.mp h₂]) hne
    · simp
    · simp
    · intro hEq
      exact hne (hinj (Option.some.inj hEq))

/-- Witness for C6: reordering the two keys of a concrete env object leaves
the binding unchanged, and an env object with one valid entry hashes
differently from the empty object under a digest separating the two. -/
theorem C6_envHash_witness :
    buildSystemRunApprovalEnvBinding sampleHashFn
        [("SAFE_A", .str "1"), ("SAFE_B", .str "2")]
      = buildSystemRunApprovalEnvBinding sampleHashFn
          [("SAFE_B", .str "2"), ("SAFE_A", .str "1")]
    ∧ (buildSystemRunApprovalEnvBinding emptinessHashFn [("SAFE_A", .str "1")]).1
        ≠ (buildSystemRunApprovalEnvBinding emptinessHashFn []).1 := by
  have hn₁ : normalizeSystemRunEnvEntries [("SAFE_A", JsVal.str "1")]
      = [("SAFE_A", "1")] := by
    have hk : normalizeEnvVarKey "SAFE_A" = some "SAFE_A" := by decide
    simp [normalizeSystemRunEnvEntries, envFilteredEntries, envEntryNormalize, hk,
      List.mergeSort_singleton]
  have hn₂ : normalizeSystemRunEnvEntries ([] : List (String × JsVal)) = [] := by
    simp [normalizeSystemRunEnvEntries, envFilteredEntries]
  constructor
  · exact (C6_envHash_order_independent_and_separating sampleHashFn _ _).1
      (by decide) (List.Perm.swap _ _ _)
  · exact (C6_envHash_order_independent_and_separating emptinessHashFn _ _).2
      (by
        rw [hn₁, hn₂]
        intro h
        exact absurd h (by decide))
      (by
        rw [hn₁, hn₂]
        simp)

end Openclaw
